import Mathlib

/-!
Verification of the Key Points Maker document transformer (`app.py`).

The program reads an ordered sequence of paragraphs (text, style name) from a
word-processing document and emits reformatted blocks: H2/H3 become all-caps
headings, H4 sentence-case bullets, H5 indented sub-bullets.

Python strings are modelled as `List Char` (one entry per code point).  The
character-level primitives `str.lower` / `str.upper` / `str.isalpha` /
`str.strip` are modelled by Lean's ASCII `Char.toLower` / `Char.toUpper` /
`Char.isAlpha` / `Char.isWhitespace`, i.e. the development works in the
simple alphabetic case-folding model that the specification declares as its
scope ("no internationalization of capitalization rules beyond simple
alphabetic case folding").

One notable point of faithfulness: in the source, the set `closing_quotes`
(line 40 of `app.py`) literally contains the three-character mojibake
strings U+201A U+00C4 U+00F9 and U+201A U+00C4 U+00F4 (an encoding
corruption of the curly quotes U+201D and U+2019).  Since Python set
membership compares the one-character string `s[-1]` against whole
elements, those two elements can never match.  The set is therefore
modelled as a list of *strings* (`List (List Char)`), exactly as written
in the source bytes.
-/

namespace KeyPointsMaker

/-! ## Character-level groundwork (ASCII model of Python's case folding) -/

/-- Evaluate `Char.ofNat` at a valid code point. -/
theorem charToNat_ofNat_valid (n : Nat) (h : n.isValidChar) : (Char.ofNat n).toNat = n := by
  simp [Char.ofNat, dif_pos h, Char.ofNatAux, Char.toNat, UInt32.toNat]

/-- Arithmetic description of `Char.toLower`. -/
theorem toNat_toLower (c : Char) :
    c.toLower.toNat = if 65 ≤ c.toNat ∧ c.toNat ≤ 90 then c.toNat + 32 else c.toNat := by
  unfold Char.toLower
  split
  · rename_i h
    rw [if_pos (by omega)]
    rw [charToNat_ofNat_valid]
    exact Or.inl (by omega)
  · rename_i h
    rw [if_neg (by omega)]

/-- Arithmetic description of `Char.toUpper`. -/
theorem toNat_toUpper (c : Char) :
    c.toUpper.toNat = if 97 ≤ c.toNat ∧ c.toNat ≤ 122 then c.toNat - 32 else c.toNat := by
  unfold Char.toUpper
  split
  · rename_i h
    rw [if_pos (by omega)]
    rw [charToNat_ofNat_valid]
    exact Or.inl (by omega)
  · rename_i h
    rw [if_neg (by omega)]

/-- Characters are determined by their code points. -/
theorem char_eq_iff_toNat {c d : Char} : c = d ↔ c.toNat = d.toNat := by
  constructor
  · intro h; rw [h]
  · intro h
    apply Char.eq_of_val_eq
    apply UInt32.eq_of_toBitVec_eq
    apply BitVec.eq_of_toNat_eq
    exact h

/-- Arithmetic description of `Char.isAlpha`. -/
theorem isAlpha_iff_toNat (c : Char) :
    c.isAlpha = true ↔ (65 ≤ c.toNat ∧ c.toNat ≤ 90) ∨ (97 ≤ c.toNat ∧ c.toNat ≤ 122) := by
  simp only [Char.isAlpha, Char.isUpper, Char.isLower, Bool.or_eq_true, Bool.and_eq_true,
    decide_eq_true_eq, ge_iff_le]
  constructor
  · intro h
    rcases h with h | h
    · exact Or.inl ⟨h.1, h.2⟩
    · exact Or.inr ⟨h.1, h.2⟩
  · intro h
    rcases h with h | h
    · exact Or.inl ⟨h.1, h.2⟩
    · exact Or.inr ⟨h.1, h.2⟩

/-! ## Python string helpers -/

/-- Python `str.rstrip()` (no arguments): drop trailing whitespace. -/
def rstrip (s : List Char) : List Char :=
  (s.reverse.dropWhile Char.isWhitespace).reverse

/-- Python `str.lstrip()` component of `strip`: drop leading whitespace. -/
def lstrip (s : List Char) : List Char :=
  s.dropWhile Char.isWhitespace

/-- Python `str.strip()` (no arguments): drop leading and trailing whitespace. -/
def strip (s : List Char) : List Char :=
  lstrip (rstrip s)

/-- Python `str.lower()` on a whole string (ASCII model). -/
def lowerStr (s : List Char) : List Char :=
  s.map Char.toLower

/-- Python `str.upper()` on a whole string (ASCII model). -/
def upperStr (s : List Char) : List Char :=
  s.map Char.toUpper

/-- Python `pattern.startswith` on lists: `isPrefixList p s` holds when `p`
is an initial segment of `s`. -/
def isPrefixList : List Char → List Char → Bool
  | [], _ => true
  | _ :: _, [] => false
  | p :: ps, c :: cs => p == c && isPrefixList ps cs

/-- Python `s.endswith(pat)`. -/
def endswith (s pat : List Char) : Bool :=
  isPrefixList pat.reverse s.reverse

/-- Python substring containment `pat in s`. -/
def containsList (pat : List Char) : List Char → Bool
  | [] => isPrefixList pat []
  | c :: cs => isPrefixList pat (c :: cs) || containsList pat cs

/-! ## Text normalizer (`to_sentence_case`, `ensure_terminal_period`) -/

/-- The per-character lowering in line 20 of `app.py`:
`ch.lower() if ch.isalpha() else ch`. -/
def lowerIfAlpha (c : Char) : Char :=
  if c.isAlpha then c.toLower else c

/-- The four sentence-terminator characters of `to_sentence_case`
(line 30 of `app.py`). -/
def sentence_terminators : List Char :=
  ['.', '!', '?', ':']

/-- The `while` loop of `to_sentence_case` (lines 23-32 of `app.py`): walk
the lowered characters left to right carrying the `cap_next` flag, upper-casing
an alphabetic character when the flag is set. -/
def sentence_case_go : Bool → List Char → List Char
  | _, [] => []
  | cap_next, ch :: rest =>
    if cap_next && ch.isAlpha then ch.toUpper :: sentence_case_go false rest
    else if ch ∈ sentence_terminators then ch :: sentence_case_go true rest
    else ch :: sentence_case_go cap_next rest

/-- `to_sentence_case` (lines 18-33 of `app.py`): lower-case every alphabetic
character, then capitalize the first alphabetic character at the start of the
string and after each sentence terminator. -/
def to_sentence_case (text : List Char) : List Char :=
  sentence_case_go true (text.map lowerIfAlpha)

/-- `to_sentence_case` on an optional input: `(text or "")` in line 19 of
`app.py` treats a missing (`None`) string as empty. -/
def to_sentence_case_opt (text : Option (List Char)) : List Char :=
  to_sentence_case (text.getD [])

/-- The set `terminal = {'.', '!', '?'}` (line 39 of `app.py`). -/
def terminal : List Char :=
  ['.', '!', '?']

/-- The set `closing_quotes` (line 40 of `app.py`), modelled as the set of
*strings* literally present in the source bytes: the straight double quote,
the straight single quote (U+0027), and the two three-character mojibake
strings U+201A U+00C4 U+00F9 and U+201A U+00C4 U+00F4 left behind by an
encoding corruption of the curly quotes. -/
def closing_quotes : List (List Char) :=
  [['"'], [Char.ofNat 39], ['‚', 'Ä', 'ù'], ['‚', 'Ä', 'ô']]

/-- `ensure_terminal_period` (lines 35-48 of `app.py`): strip trailing
whitespace; keep an empty string; keep a string already ending in a
terminator; before a trailing closing quote insert a period unless a
terminator already precedes the quote; otherwise append a period.
The guarded access `len(s) >= 2 and s[-2] in terminal` is modelled by the
short-circuit conjunction with the indexed lookup `s[(s.length - 2)]?`. -/
def ensure_terminal_period (t : List Char) : List Char :=
  let s := rstrip t
  match s.getLast? with
  | none => s
  | some last =>
    if last ∈ terminal then s
    else if [last] ∈ closing_quotes then
      if 2 ≤ s.length ∧ (s[s.length - 2]?).any (· ∈ terminal) then s
      else s.dropLast ++ ['.', last]
    else s ++ ['.']

/-! ## Heading classifier (`guess_heading_level`) -/

/-- `guess_heading_level` (lines 139-152 of `app.py`): returns `0` for
unclassifiable paragraphs and `1`-`4` for Heading 2-5. The style name is
lower-cased and stripped; empty trimmed text always yields `0`. -/
def guess_heading_level (style_name : List Char) (text : List Char) : Nat :=
  let style := strip (lowerStr style_name)
  let t := strip text
  if t = [] then 0
  else if containsList ("heading 2".toList) style || style = "h2".toList then 1
  else if containsList ("heading 3".toList) style || style = "h3".toList then 2
  else if containsList ("heading 4".toList) style || style = "h4".toList then 3
  else if containsList ("heading 5".toList) style || style = "h5".toList then 4
  else 0

/-! ## Style renderer and document transformer -/

/-- A source paragraph: plain text plus the style label read from the
source document. -/
structure SourceParagraph where
  text : List Char
  styleName : List Char
deriving Repr, DecidableEq

/-- The kind of a rendered block, per heading level. -/
inductive BlockKind
  | Heading
  | Subheading
  | Bullet
  | SubBullet
deriving Repr, DecidableEq

/-- A rendered output block: the display text together with the emphasis,
paragraph-style and explicit-indent attributes set by the renderers in
`app.py` (lines 86-137). -/
structure RenderedBlock where
  kind : BlockKind
  displayText : List Char
  bold : Bool
  underline : Bool
  styleName : Option (List Char)
  xmlIndent : Option (Nat × Nat)
deriving Repr, DecidableEq

/-- Per-level counters returned by `transform_docx` alongside the document
(line 174 of `app.py`). -/
structure Counts where
  H2 : Nat
  H3 : Nat
  H4 : Nat
  H5 : Nat
deriving Repr, DecidableEq

/-- Sum of the four counters. -/
def countsSum (c : Counts) : Nat :=
  c.H2 + c.H3 + c.H4 + c.H5

/-- `add_heading` (lines 86-96 of `app.py`): all-caps, bold, underlined. -/
def add_heading (text : List Char) : RenderedBlock :=
  { kind := BlockKind.Heading
    displayText := upperStr text
    bold := true
    underline := true
    styleName := none
    xmlIndent := none }

/-- `add_subheading_all_caps` (lines 98-108 of `app.py`): all-caps,
underlined, not bold. -/
def add_subheading_all_caps (text : List Char) : RenderedBlock :=
  { kind := BlockKind.Subheading
    displayText := upperStr text
    bold := false
    underline := true
    styleName := none
    xmlIndent := none }

/-- `add_bullet` (lines 110-123 of `app.py`): sentence-case, an optional
terminal period, styled as a bullet ("List Bullet 2" when indented). -/
def add_bullet (text : List Char) (indent : Bool) (add_period : Bool) : RenderedBlock :=
  let formatted := to_sentence_case text
  let formatted := if add_period then ensure_terminal_period formatted else formatted
  { kind := BlockKind.Bullet
    displayText := formatted
    bold := false
    underline := false
    styleName := some (if indent then "List Bullet 2".toList else "List Bullet".toList)
    xmlIndent := none }

/-- `add_h5_bullet` (lines 125-137 of `app.py`): sentence-case with the
terminal period always enforced, styled "H5Subbullet" with the nested
indent of 1080 twips left and 360 twips hanging. -/
def add_h5_bullet (text : List Char) : RenderedBlock :=
  { kind := BlockKind.SubBullet
    displayText := ensure_terminal_period (to_sentence_case text)
    bold := false
    underline := false
    styleName := some ("H5Subbullet".toList)
    xmlIndent := some (1080, 360) }

/-- The paragraph loop of `transform_docx` (lines 174-193 of `app.py`):
for each source paragraph, strip the text, skip it when empty, classify it,
render the matching block and bump the matching counter; paragraphs that do
not classify as Heading 2-5 are dropped. -/
def transform_docx (add_period_to_h4 : Bool) : List SourceParagraph → List RenderedBlock × Counts
  | [] => ([], ⟨0, 0, 0, 0⟩)
  | para :: ps =>
    let rest := transform_docx add_period_to_h4 ps
    let text := strip para.text
    if text = [] then rest
    else
      let level := guess_heading_level para.styleName text
      if level = 1 then (add_heading text :: rest.1, { rest.2 with H2 := rest.2.H2 + 1 })
      else if level = 2 then
        (add_subheading_all_caps text :: rest.1, { rest.2 with H3 := rest.2.H3 + 1 })
      else if level = 3 then
        (add_bullet text true add_period_to_h4 :: rest.1, { rest.2 with H4 := rest.2.H4 + 1 })
      else if level = 4 then (add_h5_bullet text :: rest.1, { rest.2 with H5 := rest.2.H5 + 1 })
      else rest

/-- The output-name derivation in the host shell (lines 224-230 of
`app.py`), as a function of the input filename with its extension already
removed: strip trailing whitespace; when the upper-cased base name ends in
"INPUT", replace those five trailing characters by "OUTPUT"; otherwise
append "_OUTPUT"; then add the ".docx" extension. -/
def out_name (base : List Char) : List Char :=
  let base_name := rstrip base
  if endswith (upperStr base_name) ("INPUT".toList) then
    base_name.take (base_name.length - 5) ++ ("OUTPUT.docx".toList)
  else
    base_name ++ ("_OUTPUT.docx".toList)

/-! ## Derived character lemmas -/

/-- Two booleans agreeing as propositions are equal. -/
theorem bool_eq_of_iff {a b : Bool} (h : a = true ↔ b = true) : a = b := by
  cases a <;> cases b <;> simp_all

/-- Lowering is idempotent in the ASCII model. -/
theorem toLower_toLower (c : Char) : c.toLower.toLower = c.toLower := by
  simp only [char_eq_iff_toNat, toNat_toLower]
  split_ifs <;> omega

/-- Lowering then uppering an upper-cased character lowers it. -/
theorem toLower_toUpper (c : Char) : c.toUpper.toLower = c.toLower := by
  simp only [char_eq_iff_toNat, toNat_toLower, toNat_toUpper]
  split_ifs <;> omega

/-- Uppering a lowered alphabetic character uppers the original. -/
theorem toUpper_toLower (c : Char) : c.toLower.toUpper = c.toUpper := by
  simp only [char_eq_iff_toNat, toNat_toUpper, toNat_toLower]
  split_ifs <;> omega

/-- Lowering preserves alphabeticity. -/
theorem isAlpha_toLower (c : Char) : c.toLower.isAlpha = c.isAlpha := by
  apply bool_eq_of_iff
  rw [isAlpha_iff_toNat, isAlpha_iff_toNat, toNat_toLower]
  split_ifs <;> omega

/-- Uppering preserves alphabeticity. -/
theorem isAlpha_toUpper (c : Char) : c.toUpper.isAlpha = c.isAlpha := by
  apply bool_eq_of_iff
  rw [isAlpha_iff_toNat, isAlpha_iff_toNat, toNat_toUpper]
  split_ifs <;> omega

/-- A non-alphabetic character is fixed by `Char.toUpper`. -/
theorem toUpper_eq_self_of_not_alpha (c : Char) (h : c.isAlpha = false) : c.toUpper = c := by
  have hr : ¬(97 ≤ c.toNat ∧ c.toNat ≤ 122) := by
    intro hr
    rw [(isAlpha_iff_toNat c).mpr (Or.inr hr)] at h
    exact Bool.true_eq_false.mp h
  rw [char_eq_iff_toNat, toNat_toUpper, if_neg hr]

/-- The per-character lowering of `to_sentence_case` is idempotent. -/
theorem lowerIfAlpha_lowerIfAlpha (c : Char) : lowerIfAlpha (lowerIfAlpha c) = lowerIfAlpha c := by
  simp only [lowerIfAlpha]
  split_ifs with h h2
  · exact toLower_toLower c
  · rfl
  · rfl

/-- Upper-casing an alphabetic character does not change its per-character
lowering. -/
theorem lowerIfAlpha_toUpper (c : Char) (h : c.isAlpha = true) :
    lowerIfAlpha c.toUpper = lowerIfAlpha c := by
  simp only [lowerIfAlpha, isAlpha_toUpper, h, if_true]
  exact toLower_toUpper c

/-! ## Sentence-case lemmas (claims C4, C5, C9) -/

/-- The sentence-case walk does not change the lowered character sequence. -/
theorem map_lowerIfAlpha_go (b : Bool) (t : List Char) :
    (sentence_case_go b t).map lowerIfAlpha = t.map lowerIfAlpha := by
  induction t generalizing b with
  | nil => rfl
  | cons c cs ih =>
    simp only [sentence_case_go]
    split_ifs with h1 h2
    · simp only [List.map_cons, ih]
      rw [lowerIfAlpha_toUpper c (Bool.and_elim_right h1)]
    · simp only [List.map_cons, ih]
    · simp only [List.map_cons, ih]

/-- The per-character lowering map is idempotent on strings. -/
theorem map_lowerIfAlpha_idem (s : List Char) :
    (s.map lowerIfAlpha).map lowerIfAlpha = s.map lowerIfAlpha := by
  rw [List.map_map]
  exact List.map_congr_left fun a _ => lowerIfAlpha_lowerIfAlpha a

/-- Claim C5: `to_sentence_case` is idempotent. -/
theorem C5_sentence_case_idem (s : List Char) :
    to_sentence_case (to_sentence_case s) = to_sentence_case s := by
  unfold to_sentence_case
  rw [map_lowerIfAlpha_go, map_lowerIfAlpha_idem]

/-- Specification-side step for sentence-casing (from the spec's words): a
capitalization flag starts true, is set true upon seeing a terminator, is
consumed upon capitalizing the next alphabetic character, and is left
unchanged by other characters. -/
def specCapStep : (List Char × Bool) → Char → (List Char × Bool)
  | (acc, flag), c =>
    if flag && c.isAlpha then (acc ++ [c.toUpper], false)
    else if c ∈ sentence_terminators then (acc ++ [c], true)
    else (acc ++ [c], flag)

/-- Specification-side sentence-casing (from the spec's words): lower-case
every alphabetic character, then walk the string left to right capitalizing
the first alphabetic character following the start of string or any
sentence terminator. -/
def toSentenceCaseSpec (text : List Char) : List Char :=
  ((text.map lowerIfAlpha).foldl specCapStep ([], true)).1

/-- The specification fold and the source walk agree. -/
theorem foldl_specCapStep (t : List Char) : ∀ (acc : List Char) (b : Bool),
    (t.foldl specCapStep (acc, b)).1 = acc ++ sentence_case_go b t := by
  induction t with
  | nil =>
    intro acc b
    simp [sentence_case_go]
  | cons c cs ih =>
    intro acc b
    simp only [List.foldl_cons, sentence_case_go, specCapStep]
    split_ifs with h1 h2
    · rw [ih]
      simp
    · rw [ih]
      simp
    · rw [ih]
      simp

/-- Claim C4: `to_sentence_case` lower-cases every alphabetic character and
capitalizes exactly the first alphabetic character at the start of the string
and after each occurrence of a sentence terminator (refinement against the
specification-side fold); a missing input behaves as the empty string, the
empty string maps to itself, and the spec's two worked examples hold. -/
theorem C4_sentence_case_spec (s : List Char) :
    to_sentence_case s = toSentenceCaseSpec s ∧
    to_sentence_case_opt none = [] ∧
    to_sentence_case [] = [] ∧
    to_sentence_case ("hello. world".toList) = "Hello. World".toList ∧
    to_sentence_case ("a b: c".toList) = "A b: C".toList := by
  refine ⟨?_, by decide, by decide, by decide, by decide⟩
  rw [to_sentence_case, toSentenceCaseSpec, foldl_specCapStep]
  rfl

/-! ## End-to-end transformation (claim C1) -/

/-- Claim C1: on the four-paragraph input `[("INTRO", "Heading 2"),
("", "Heading 3"), ("point one", "Heading 4"), ("sub point", "Heading 5")]`
with the period flag on, `transform_docx` produces the counts
H2=1, H3=0, H4=1, H5=1 and exactly three blocks in source order: the
upper-cased heading "INTRO", the sentence-cased bullet "Point one." with a
terminal period, and the sentence-cased sub-bullet "Sub point." with a
terminal period and the nested 1080/360-twip indent. -/
theorem C1_end_to_end :
    transform_docx true
      [⟨"INTRO".toList, "Heading 2".toList⟩, ⟨"".toList, "Heading 3".toList⟩,
       ⟨"point one".toList, "Heading 4".toList⟩, ⟨"sub point".toList, "Heading 5".toList⟩] =
    ([{ kind := BlockKind.Heading, displayText := "INTRO".toList, bold := true, underline := true,
        styleName := none, xmlIndent := none },
      { kind := BlockKind.Bullet, displayText := "Point one.".toList, bold := false,
        underline := false, styleName := some ("List Bullet 2".toList), xmlIndent := none },
      { kind := BlockKind.SubBullet, displayText := "Sub point.".toList, bold := false,
        underline := false, styleName := some ("H5Subbullet".toList),
        xmlIndent := some (1080, 360) }],
     { H2 := 1, H3 := 0, H4 := 1, H5 := 1 }) := by
  decide

/-! ## Counts invariant (claim C2) -/

/-- A source paragraph that the transformer renders: its trimmed text is
non-empty and the classifier does not return 0. -/
def renderable (p : SourceParagraph) : Bool :=
  decide (strip p.text ≠ []) && decide (guess_heading_level p.styleName (strip p.text) ≠ 0)

/-- The classifier only returns the values 0 to 4. -/
theorem guess_heading_level_le (style text : List Char) :
    guess_heading_level style text ≤ 4 := by
  simp only [guess_heading_level]
  split_ifs <;> omega

/-- Claim C2: for every source sequence and flag value, the sum of the four
counters equals the number of rendered blocks, which equals the number of
source paragraphs with non-empty trimmed text and a non-`None`
classification. -/
theorem C2_counts_invariant (src : List SourceParagraph) (flag : Bool) :
    countsSum (transform_docx flag src).2 = (transform_docx flag src).1.length ∧
    (transform_docx flag src).1.length = (src.filter renderable).length := by
  induction src with
  | nil => simp [transform_docx, countsSum]
  | cons p ps ih =>
    have ih1 := ih.1
    have ih2 := ih.2
    simp only [countsSum] at ih1
    simp only [transform_docx, List.filter_cons]
    by_cases h0 : strip p.text = []
    · have hr : renderable p = false := by simp [renderable, h0]
      simp [h0, hr, countsSum]
      omega
    · by_cases h1 : guess_heading_level p.styleName (strip p.text) = 1
      · have hren : renderable p = true := by simp [renderable, h0, h1]
        simp [h0, h1, hren, countsSum]
        omega
      · by_cases h2 : guess_heading_level p.styleName (strip p.text) = 2
        · have hren : renderable p = true := by simp [renderable, h0, h2]
          simp [h0, h1, h2, hren, countsSum]
          omega
        · by_cases h3 : guess_heading_level p.styleName (strip p.text) = 3
          · have hren : renderable p = true := by simp [renderable, h0, h3]
            simp [h0, h1, h2, h3, hren, countsSum]
            omega
          · by_cases h4 : guess_heading_level p.styleName (strip p.text) = 4
            · have hren : renderable p = true := by simp [renderable, h0, h4]
              simp [h0, h1, h2, h3, h4, hren, countsSum]
              omega
            · have h5 : guess_heading_level p.styleName (strip p.text) = 0 := by
                have := guess_heading_level_le p.styleName (strip p.text)
                omega
              have hren : renderable p = false := by simp [renderable, h5]
              simp [h0, h1, h2, h3, h4, hren, countsSum]
              omega

/-! ## Terminal-period normalization against the spec (claim C3) -/

/-- Specification-side closing-quote set (from the spec's words: "straight
or curly single/double quote"): the straight double quote, the straight
single quote U+0027, the right double quotation mark U+201D and the right
single quotation mark U+2019 — each a one-character string. -/
def closingQuotesSpec : List Char :=
  ['"', Char.ofNat 39, '”', '’']

/-- Specification-side terminal-period normalization (from the spec's
words), identical to the source algorithm except that it uses the intended
one-character closing-quote set `closingQuotesSpec` instead of the
corrupted literal actually present in the source. -/
def ensureTerminalPeriodSpec (t : List Char) : List Char :=
  let s := rstrip t
  match s.getLast? with
  | none => s
  | some last =>
    if last ∈ terminal then s
    else if last ∈ closingQuotesSpec then
      if 2 ≤ s.length ∧ (s[s.length - 2]?).any (· ∈ terminal) then s
      else s.dropLast ++ ['.', last]
    else s ++ ['.']

/-- Claim C3 (code bug): on input `Done”` — ending in the curly right
double quotation mark U+201D — the source appends the period after the
quote, while the claimed behavior (insert the period before a trailing
closing quote, "straight or curly") yields `Done.”`; the corrupted
`closing_quotes` literal cannot match any single character beyond the two
straight quotes.  The claim's straight-quote examples do hold on the
source. -/
theorem C3_curly_quote_divergence :
    ensure_terminal_period ("Done”".toList) = "Done”.".toList ∧
    ensureTerminalPeriodSpec ("Done”".toList) = "Done.”".toList ∧
    ensure_terminal_period ("He said \"stop\"".toList) = "He said \"stop.\"".toList ∧
    ensure_terminal_period ("Already done.\"".toList) = "Already done.\"".toList ∧
    ensure_terminal_period [] = [] ∧
    ensure_terminal_period ("done".toList) = "done.".toList := by
  refine ⟨by decide, by decide, by decide, by decide, by decide, by decide⟩

/-! ## Heading classification against the claim (claim C6) -/

/-- The heading levels of the data model. -/
inductive HeadingLevel
  | none
  | H2
  | H3
  | H4
  | H5
deriving Repr, DecidableEq

/-- The correspondence between the source's integer levels 0-4 and the
data model's heading levels. -/
def levelToHeading : Nat → HeadingLevel
  | 1 => HeadingLevel.H2
  | 2 => HeadingLevel.H3
  | 3 => HeadingLevel.H4
  | 4 => HeadingLevel.H5
  | _ => HeadingLevel.none

/-- The classifier exactly as the claim words it: empty trimmed text maps
to `none`; otherwise the style label is matched case-insensitively (and
only case-insensitively — no whitespace trimming of the label) against the
markers, in the fixed priority order H2, H3, H4, H5. -/
def classifySpecClaim (styleLabel text : List Char) : HeadingLevel :=
  if strip text = [] then HeadingLevel.none
  else
    let l := lowerStr styleLabel
    if containsList ("heading 2".toList) l || l = "h2".toList then HeadingLevel.H2
    else if containsList ("heading 3".toList) l || l = "h3".toList then HeadingLevel.H3
    else if containsList ("heading 4".toList) l || l = "h4".toList then HeadingLevel.H4
    else if containsList ("heading 5".toList) l || l = "h5".toList then HeadingLevel.H5
    else HeadingLevel.none

/-- The amended classifier: as the claim, except that the style label is
lower-cased *and stripped of leading and trailing whitespace* before the
markers are tested, as the source does. -/
def classifySpecAmended (styleLabel text : List Char) : HeadingLevel :=
  if strip text = [] then HeadingLevel.none
  else
    let l := strip (lowerStr styleLabel)
    if containsList ("heading 2".toList) l || l = "h2".toList then HeadingLevel.H2
    else if containsList ("heading 3".toList) l || l = "h3".toList then HeadingLevel.H3
    else if containsList ("heading 4".toList) l || l = "h4".toList then HeadingLevel.H4
    else if containsList ("heading 5".toList) l || l = "h5".toList then HeadingLevel.H5
    else HeadingLevel.none

/-- Claim C6 counterexample: on the style label `" h2 "` (surrounded by
spaces) with non-empty text, the source classifies H2 — it strips the label
before the equality test — while the claim's case-insensitive-only mapping
classifies `none`. -/
theorem C6_classifier_counterexample :
    levelToHeading (guess_heading_level (" h2 ".toList) ("x".toList)) = HeadingLevel.H2 ∧
    classifySpecClaim (" h2 ".toList) ("x".toList) = HeadingLevel.none := by
  refine ⟨by decide, by decide⟩

/-- Claim C6 (amended): with the style label lower-cased and stripped of
surrounding whitespace first, the source classifier agrees everywhere with
the claim's mapping: empty trimmed text yields `none`; otherwise the label
is matched against "heading 2"/"h2" through "heading 5"/"h5" in the fixed
priority order H2, H3, H4, H5, anything else yielding `none`. -/
theorem C6_classifier_amended (styleLabel text : List Char) :
    levelToHeading (guess_heading_level styleLabel text) = classifySpecAmended styleLabel text := by
  simp only [guess_heading_level, classifySpecAmended]
  split_ifs <;> rfl

/-! ## Length-one safety of `ensure_terminal_period` (claim C7) -/

/-- Claim C7: on any string whose trailing-whitespace-trimmed form has
length one, the second-to-last-character guard `2 ≤ length` is false — the
indexed inspection is never reached — and `ensure_terminal_period` returns
the total, well-defined result determined by that single character. -/
theorem C7_length_one_safe (s : List Char) (h : (rstrip s).length = 1) :
    ¬ 2 ≤ (rstrip s).length ∧
    ∃ c, rstrip s = [c] ∧
      ensure_terminal_period s =
        (if c ∈ terminal then [c]
         else if [c] ∈ closing_quotes then ['.', c]
         else [c, '.']) := by
  obtain ⟨c, hc⟩ := List.length_eq_one.mp h
  refine ⟨by omega, c, hc, ?_⟩
  simp only [ensure_terminal_period, hc]
  by_cases h1 : c ∈ terminal
  · simp [h1]
  · by_cases h2 : [c] ∈ closing_quotes
    · simp [h1, h2]
    · simp [h1, h2]

/-- Claim C7 witness: the single-character string `"` (after trimming the
trailing blank) is handled without inspecting a second-to-last character,
yielding `."`. -/
theorem C7_length_one_safe_witness :
    ¬ 2 ≤ (rstrip ['"', ' ']).length ∧
    ∃ c, rstrip ['"', ' '] = [c] ∧
      ensure_terminal_period ['"', ' '] =
        (if c ∈ terminal then [c]
         else if [c] ∈ closing_quotes then ['.', c]
         else [c, '.']) :=
  C7_length_one_safe ['"', ' '] (by decide)

/-! ## Output-name derivation (claim C8) -/

/-- Matching a fixed upper-case letter against `Char.toUpper` is the same
test as matching its lower-case partner against `Char.toLower`. -/
theorem upper_beq_eq_lower_beq (U L c : Char) (hU : 65 ≤ U.toNat ∧ U.toNat ≤ 90)
    (hL : L.toNat = U.toNat + 32) :
    (U == c.toUpper) = (L == c.toLower) := by
  apply bool_eq_of_iff
  simp only [beq_iff_eq]
  rw [char_eq_iff_toNat, char_eq_iff_toNat, toNat_toUpper, toNat_toLower]
  split_ifs <;> omega

/-- Prefix matching of paired upper/lower patterns against the upper- and
lower-cased copies of a string agrees character by character. -/
theorem isPrefixList_map_CI (ps : List (Char × Char))
    (hp : ∀ p ∈ ps, ∀ c : Char, (p.1 == c.toUpper) = (p.2 == c.toLower)) :
    ∀ l : List Char,
      isPrefixList (ps.map Prod.fst) (l.map Char.toUpper) =
        isPrefixList (ps.map Prod.snd) (l.map Char.toLower) := by
  induction ps with
  | nil => intro l; rfl
  | cons q qs ih =>
    intro l
    cases l with
    | nil => rfl
    | cons c cs =>
      simp only [List.map_cons, isPrefixList]
      rw [hp q (List.mem_cons_self q qs) c]
      rw [ih (fun p hmem c' => hp p (List.mem_cons_of_mem q hmem) c') cs]

/-- Testing the upper-cased string for the suffix "INPUT" is the same as
testing the lower-cased string for the suffix "input". -/
theorem endswith_INPUT_ci (b : List Char) :
    endswith (upperStr b) ("INPUT".toList) = endswith (lowerStr b) ("input".toList) := by
  unfold endswith upperStr lowerStr
  have e1 : ("INPUT".toList).reverse = ['T', 'U', 'P', 'N', 'I'] := by decide
  have e2 : ("input".toList).reverse = ['t', 'u', 'p', 'n', 'i'] := by decide
  rw [e1, e2, ← List.map_reverse, ← List.map_reverse]
  have hp : ∀ p ∈ [('T', 't'), ('U', 'u'), ('P', 'p'), ('N', 'n'), ('I', 'i')], ∀ c : Char,
      (Prod.fst p == c.toUpper) = (Prod.snd p == c.toLower) := by
    intro p hmem c
    fin_cases hmem <;> exact upper_beq_eq_lower_beq _ _ c (by decide) (by decide)
  exact isPrefixList_map_CI [('T', 't'), ('U', 'u'), ('P', 'p'), ('N', 'n'), ('I', 'i')] hp
    b.reverse

/-- Specification-side output-name derivation (from the claim's words):
trim trailing whitespace from the extensionless base name; when it ends
with "INPUT" compared case-insensitively — here rendered by lower-casing —
replace the trailing five characters by "OUTPUT"; otherwise append
"_OUTPUT". -/
def deriveOutNameSpec (base : List Char) : List Char :=
  let base_name := rstrip base
  if endswith (lowerStr base_name) ("input".toList) then
    base_name.take (base_name.length - 5) ++ ("OUTPUT.docx".toList)
  else
    base_name ++ ("_OUTPUT.docx".toList)

/-- Claim C8: the derived output name trims trailing whitespace from the
extensionless input name, replaces a trailing case-insensitive "INPUT" by
"OUTPUT" and otherwise appends "_OUTPUT" (refinement against the
specification-side derivation, plus concrete examples). -/
theorem C8_out_name_spec (base : List Char) :
    out_name base = deriveOutNameSpec base ∧
    out_name ("Report INPUT".toList) = "Report OUTPUT.docx".toList ∧
    out_name ("notes".toList) = "notes_OUTPUT.docx".toList ∧
    out_name ("myinput".toList) = "myOUTPUT.docx".toList := by
  refine ⟨?_, by decide, by decide, by decide⟩
  simp only [out_name, deriveOutNameSpec, endswith_INPUT_ci]

/-! ## Casing-only behavior of `to_sentence_case` (claim C9) -/

/-- The sentence-case walk preserves length. -/
theorem sentence_case_go_length (b : Bool) (t : List Char) :
    (sentence_case_go b t).length = t.length := by
  induction t generalizing b with
  | nil => rfl
  | cons c cs ih =>
    simp only [sentence_case_go]
    split_ifs <;> simp [ih]

/-- Each character produced by the sentence-case walk is the input
character at the same position, possibly upper-cased. -/
theorem sentence_case_go_getElem (b : Bool) (t : List Char) (i : Nat) :
    (sentence_case_go b t)[i]? = t[i]? ∨
    (sentence_case_go b t)[i]? = (t[i]?).map Char.toUpper := by
  induction t generalizing b i with
  | nil => left; rfl
  | cons c cs ih =>
    simp only [sentence_case_go]
    split_ifs with h1 h2
    · cases i with
      | zero => right; simp
      | succ n =>
        simp only [List.getElem?_cons_succ]
        exact ih false n
    · cases i with
      | zero => left; simp
      | succ n =>
        simp only [List.getElem?_cons_succ]
        exact ih true n
    · cases i with
      | zero => left; simp
      | succ n =>
        simp only [List.getElem?_cons_succ]
        exact ih b n

/-- Claim C9: `to_sentence_case` returns a string of the same length in
which every alphabetic character is the lower- or upper-case form of the
input character at that position and every non-alphabetic character is
unchanged. -/
theorem C9_casing_only (s : List Char) :
    (to_sentence_case s).length = s.length ∧
    ∀ (i : Nat) (c : Char), s[i]? = some c →
      (c.isAlpha = true →
        (to_sentence_case s)[i]? = some c.toLower ∨ (to_sentence_case s)[i]? = some c.toUpper) ∧
      (c.isAlpha = false → (to_sentence_case s)[i]? = some c) := by
  constructor
  · rw [to_sentence_case, sentence_case_go_length, List.length_map]
  · intro i c hc
    have hmap : (s.map lowerIfAlpha)[i]? = some (lowerIfAlpha c) := by
      rw [List.getElem?_map, hc]
      rfl
    have hgo := sentence_case_go_getElem true (s.map lowerIfAlpha) i
    constructor
    · intro ha
      have hla : lowerIfAlpha c = c.toLower := by simp [lowerIfAlpha, ha]
      rcases hgo with hg | hg
      · left
        rw [to_sentence_case, hg, hmap, hla]
      · right
        rw [to_sentence_case, hg, hmap]
        simp only [Option.map_some']
        rw [hla, toUpper_toLower c]
    · intro ha
      have hla : lowerIfAlpha c = c := by simp [lowerIfAlpha, ha]
      rcases hgo with hg | hg
      · rw [to_sentence_case, hg, hmap, hla]
      · rw [to_sentence_case, hg, hmap]
        simp only [Option.map_some']
        rw [hla, toUpper_eq_self_of_not_alpha c ha]

/-- Claim C9 witness: on the input "a1", position 0 is a letter that may
only change case, and position 1 — a digit — is returned unchanged. -/
theorem C9_casing_only_witness :
    ((to_sentence_case ("a1".toList))[0]? = some ('a'.toLower) ∨
      (to_sentence_case ("a1".toList))[0]? = some ('a'.toUpper)) ∧
    (to_sentence_case ("a1".toList))[1]? = some '1' :=
  ⟨((C9_casing_only ("a1".toList)).2 0 'a' (by decide)).1 (by decide),
   ((C9_casing_only ("a1".toList)).2 1 '1' (by decide)).2 (by decide)⟩

/-! ## Shape of `ensure_terminal_period` results (claim C10) -/

/-- Claim C10: on any input whose trailing-whitespace-trimmed form is
non-empty, the result of `ensure_terminal_period` ends either with a
terminator or with a closing-quote character immediately preceded by a
terminator. -/
theorem C10_terminal_shape (s : List Char) (h : rstrip s ≠ []) :
    (∃ c, c ∈ terminal ∧ (ensure_terminal_period s).getLast? = some c) ∨
    (∃ q c, [q] ∈ closing_quotes ∧ c ∈ terminal ∧
      (ensure_terminal_period s).getLast? = some q ∧
      (ensure_terminal_period s)[(ensure_terminal_period s).length - 2]? = some c) := by
  obtain ⟨last, hlast⟩ := Option.isSome_iff_exists.mp (List.getLast?_isSome.mpr h)
  by_cases h1 : last ∈ terminal
  · left
    refine ⟨last, h1, ?_⟩
    simp only [ensure_terminal_period, hlast, if_pos h1]
  · by_cases h2 : [last] ∈ closing_quotes
    · by_cases h3 : 2 ≤ (rstrip s).length ∧
        ((rstrip s)[(rstrip s).length - 2]?).any (· ∈ terminal)
      · obtain ⟨c, hgc, hcterm⟩ :
            ∃ c, (rstrip s)[(rstrip s).length - 2]? = some c ∧ c ∈ terminal := by
          obtain ⟨hlen, hany⟩ := h3
          cases hg : (rstrip s)[(rstrip s).length - 2]? with
          | none =>
            rw [hg] at hany
            simp at hany
          | some c =>
            rw [hg] at hany
            exact ⟨c, rfl, by simpa using hany⟩
        have hres : ensure_terminal_period s = rstrip s := by
          simp only [ensure_terminal_period, hlast, if_neg h1, if_pos h2, if_pos h3]
        right
        exact ⟨last, c, h2, hcterm, by rw [hres]; exact hlast, by rw [hres]; exact hgc⟩
      · have hres : ensure_terminal_period s = (rstrip s).dropLast ++ ['.', last] := by
          simp only [ensure_terminal_period, hlast, if_neg h1, if_pos h2, if_neg h3]
        right
        refine ⟨last, '.', h2, by decide, ?_, ?_⟩
        · rw [hres, List.getLast?_append]
          rfl
        · rw [hres]
          rw [List.getElem?_append_right (by simp)]
          simp
    · have hres : ensure_terminal_period s = rstrip s ++ ['.'] := by
        simp only [ensure_terminal_period, hlast, if_neg h1, if_neg h2]
      left
      refine ⟨'.', by decide, ?_⟩
      rw [hres, List.getLast?_append]
      rfl

/-- Claim C10 witness: "done" gains a terminal period. -/
theorem C10_terminal_shape_witness :
    (∃ c, c ∈ terminal ∧ (ensure_terminal_period ("done".toList)).getLast? = some c) ∨
    (∃ q c, [q] ∈ closing_quotes ∧ c ∈ terminal ∧
      (ensure_terminal_period ("done".toList)).getLast? = some q ∧
      (ensure_terminal_period ("done".toList))[(ensure_terminal_period ("done".toList)).length
        - 2]? = some c) :=
  C10_terminal_shape ("done".toList) (by decide)

end KeyPointsMaker
